import Mathlib

/-!
Verification of the wikidict core: the German template dispatch
(src/wikidict/lang/de/__init__.py) and the dump streamer
(src/wikidict/parse.py), shallowly embedded in Lean 4.
-/

namespace Wikidict

/-! ## Lookup tables

Python locale tables are dictionaries queried with `dict.get(key, "")`:
a missing key and a key mapped to the empty string are indistinguishable
to the caller.  We embed a table as an association list and `lookup`
as that query. -/

def lookup (tbl : List (String × String)) (k : String) : String :=
  match tbl.find? (fun p => p.1 == k) with
  | some p => p.2
  | none => ""

/-- Modelled from the spec: `italic` lives in `wikidict/user_functions.py`,
which is not part of the excerpt.  The spec says labels are rendered
"italicized" and the doctest of `last_template_handler` shows the concrete
form `<i>(Default)</i>`, so italicizing wraps the text in an i tag. -/
def italic (s : String) : String := "<i>" ++ s ++ "</i>"

/-! ## The German locale tables (src/wikidict/lang/de/__init__.py) -/

def templates_ignored : List String :=
  ["Herkunft unbelegt", "QS Bedeutungen", "QS_Bedeutungen", "QS Herkunft", "QS_Herkunft"]

/-- The string-expression mini-language of `templates_multi`, as the closed
tagged-variant type: wrap a literal in italics, select a parameter by fixed
or negative index, or italicize a selected parameter. -/
inductive MiniRule where
  | italicLit (s : String)
  | select (i : Int)
  | italicSelect (i : Int)
deriving Repr, DecidableEq

/-- Python negative indexing on the parameter list: `parts[-1]` is the last
element.  Out-of-range selection is not exercised by any table entry. -/
def pySelect (parts : List String) (i : Int) : String :=
  if i < 0 then parts.getD (parts.length - (-i).toNat) ""
  else parts.getD i.toNat ""

def MiniRule.eval : MiniRule → List String → String
  | .italicLit s, _ => italic s
  | .select i, parts => pySelect parts i
  | .italicSelect i, parts => italic (pySelect parts i)

/-- `templates_multi` of src/wikidict/lang/de/__init__.py, each textual rule
translated to its `MiniRule` variant. -/
def templates_multi : List (String × MiniRule) :=
  [ ("f", .italicLit "f"),
    ("fm", .italicLit "f, m"),
    ("fn", .italicLit "f, n"),
    ("L", .select 1),
    ("lang", .select (-1)),
    ("m", .italicLit "m"),
    ("mf", .italicLit "m, f"),
    ("n", .italicLit "n"),
    ("noredlink", .select (-1)),
    ("Polytonisch", .select (-1)),
    ("Ü", .italicSelect (-1)),
    ("vgl.", .italicLit "vergleiche:"),
    ("W", .select (-1)),
    ("WP", .select (-1)) ]

/-- `templates_other` of src/wikidict/lang/de/__init__.py. -/
def templates_other : List (String × String) :=
  [ ("Gen.", "Genitiv:"),
    ("Pl.", "Plural:"),
    ("Pl.1", "Plural 1:"),
    ("Pl.2", "Plural 2:"),
    ("Pl.3", "Plural 3:"),
    ("Pl.4", "Plural 4:") ]

/-- `templates_markierung` of src/wikidict/lang/de/__init__.py. -/
def templates_markierung : List (String × String) :=
  [ ("abw.", "abwertend"),
    ("adv.", "adverbial"),
    ("Dativ", "mit Dativ"),
    ("fachspr.", "fachsprachlich"),
    ("fam.", "familiär"),
    ("fDu.", "f Du."),
    ("fig.", "figurativ"),
    ("fPl.", "f Pl."),
    ("geh.", "gehoben"),
    ("Genitiv", "mit Genitiv"),
    ("hist.", "historisch"),
    ("indekl.", "indeklinabel"),
    ("intrans.", "intransitiv"),
    ("kPl.", "kein Plural"),
    ("kSg.", "kein Singular"),
    ("kSt.", "keine Steigerung"),
    ("landsch.", "landschaftlich"),
    ("mPl.", "m Pl."),
    ("mDu.", "m Du."),
    ("meton.", "metonymisch"),
    ("nPl.", "n Pl."),
    ("refl.", "reflexiv"),
    ("reg.", "regional"),
    ("scherzh.", "scherzhaft"),
    ("trans.", "transitiv"),
    ("uPl.", "u Pl."),
    ("ugs.", "umgangssprachlich"),
    ("unreg.", "unregelmäßig"),
    ("übertr.", "übertragen"),
    ("vatd.", "veraltend"),
    ("veraltend", "veraltend"),
    ("va.", "veraltet"),
    ("veraltet", "veraltet"),
    ("vul.", "vulgär"),
    ("vulg.", "vulgär") ]

/-- Modelled from the spec: `lang_adjs` (module `wikidict/lang/de/lang_adjs.py`,
absent from the excerpt) is the language-adjective table.  The spec and the
doctests of `last_template_handler` pin the entry mapping "fr." to
"französisch"; only that attested entry is modelled. -/
def lang_adjs : List (String × String) := [("fr.", "französisch")]

/-- Modelled from the spec: `langs` (module `wikidict/lang/de/langs.py`,
absent from the excerpt) is the language-name table.  The spec and the
doctests pin the entry mapping "fr" to "Französisch". -/
def langs : List (String × String) := [("fr", "Französisch")]

/-- Modelled from the spec: the generic template registry
(`wikidict/lang/de/template_handlers.py::lookup_template`, absent from the
excerpt) recognizes the locale-independent template names — here the names
of the multi-argument evaluator table, the fixed-replacement table and the
ignored set. -/
def lookup_template (name : String) : Bool :=
  templates_multi.any (fun p => p.1 == name)
    || templates_other.any (fun p => p.1 == name)
    || templates_ignored.contains name

/-- Modelled from the spec: the generic template registry
(`wikidict/lang/de/template_handlers.py::render_template`, absent from the
excerpt) renders a recognized invocation: a multi-argument rule is
evaluated on the parameter list, a fixed-replacement name yields its
replacement string, an ignored name yields the empty string. -/
def render_template (template : List String) : String :=
  let name := template.headD ""
  match templates_multi.find? (fun p => p.1 == name) with
  | some p => p.2.eval template
  | none =>
    match templates_other.find? (fun p => p.1 == name) with
    | some p => p.2
    | none => ""

/-- Modelled from the spec: the default fallback
(`wikidict/lang/defaults.py::last_template_handler`, absent from the
excerpt) renders a neutral placeholder incorporating the template name; the
doctest shows the concrete form: an italicized capitalized name in
parentheses. -/
def default_handler (template : List String) : String :=
  italic ("(" ++ (template.headD "").capitalize ++ ")")

/-- The LocaleRuleSet of the spec: the locale-scoped tables consulted by
the dispatch chain, plus the generic-registry collaborator. -/
structure LocaleRuleSet where
  lang_adjs : List (String × String)
  langs : List (String × String)
  markierung : List (String × String)
  lookupTemplate : String → Bool
  renderTemplate : List String → String

/-- The German rule set: `templates_markierung` from the source, the
spec-modelled adjective/name tables and registry. -/
def de_ruleset : LocaleRuleSet :=
  { lang_adjs := lang_adjs
    langs := langs
    markierung := templates_markierung
    lookupTemplate := lookup_template
    renderTemplate := render_template }

/-- `last_template_handler` of src/wikidict/lang/de/__init__.py, with the
module-level tables and imported collaborators passed as the rule set.
`template` is the invocation: name followed by the positional parameters.
Python reads `template[1] if len(template) > 1 else ""` — `List.getD 1 ""`. -/
def last_template_handler (rs : LocaleRuleSet) (template : List String) : String :=
  let name := template.headD ""
  let second := template.getD 1 ""
  let lang_adj := lookup rs.lang_adjs name
  if lang_adj ≠ "" then lang_adj ++ second
  else
    let lang := lookup rs.langs name
    if lang ≠ "" then lang
    else
      let markierung := lookup rs.markierung name
      if markierung ≠ "" then italic (markierung ++ second)
      else if rs.lookupTemplate name then rs.renderTemplate template
      else default_handler template

/-- The four doctests of `last_template_handler`, reproduced. -/
theorem doctests_last_template_handler :
    last_template_handler de_ruleset ["default"] = "<i>(Default)</i>"
      ∧ last_template_handler de_ruleset ["fr."] = "französisch"
      ∧ last_template_handler de_ruleset ["fr.", ":"] = "französisch:"
      ∧ last_template_handler de_ruleset ["fr"] = "Französisch" := by
  refine ⟨by decide, by decide, by decide, by decide⟩

/-! ## The dump streamer (src/wikidict/parse.py)

An `ElementTree.Element` carries a tag, an optional text and a list of
children.  Python indexing `element[i]` raises `IndexError` when out of
range — embedded as `Except String`; Python element truthiness
(`not revision`) is emptiness of the child list. -/

inductive Element where
  | mk (tag : String) (text : Option String) (children : List Element)

def Element.tag : Element → String
  | .mk t _ _ => t

def Element.text : Element → Option String
  | .mk _ x _ => x

def Element.children : Element → List Element
  | .mk _ _ c => c

/-- The MediaWiki export namespace prefixed to every tag. -/
def ns : String := "{http://www.mediawiki.org/xml/export-0.10/}"

/-- `word = element[0].text or ""` — the title; only evaluated when
`element[3]` exists, so the head is present. -/
def titleOf (element : Element) : String :=
  ((element.children.headD (.mk "" none [])).text).getD ""

/-- The `for info in revision[5:]` loop: the first child from index 5 on
whose tag is the text tag, yielding `info.text or ""`; `none` when the loop
falls through to its `else`. -/
def scanText (revChildren : List Element) : Option String :=
  ((revChildren.drop 5).find? (fun info => info.tag == ns ++ "text")).map
    (fun info => info.text.getD "")

/-- `xml_parse_element` of src/wikidict/parse.py.  `revision = element[3]`;
a restrictions tag there means the revision is `element[4]` instead; an
empty (childless) `element[3]` is a redirect page, returning `("", "")`;
no text-bearing child from index 5 on also returns `("", "")`.
Out-of-range indexing is the `Except.error` case. -/
def xml_parse_element (element : Element) : Except String (String × String) :=
  match element.children.get? 3 with
  | none => .error "IndexError"
  | some r3 =>
    if r3.tag = ns ++ "restrictions" then
      match element.children.get? 4 with
      | none => .error "IndexError"
      | some r4 =>
        match scanText r4.children with
        | none => .ok ("", "")
        | some code => .ok (titleOf element, code)
    else if r3.children.isEmpty then .ok ("", "")
    else
      match scanText r3.children with
      | none => .ok ("", "")
      | some code => .ok (titleOf element, code)

/-- `words[word] = code` on a Python dict: replace the value of an existing
key in place, otherwise append the new binding. -/
def setKey (m : List (String × String)) (k v : String) : List (String × String) :=
  if m.any (fun p => p.1 == k) then
    m.map (fun p => if p.1 == k then (k, v) else p)
  else m ++ [(k, v)]

/-- Python `":" in word`: membership of the separator character among the
characters of the word. -/
def hasColon (w : String) : Bool := w.data.contains ':'

/-- The body of the `process` loop for one extracted pair: skip it when the
word is empty, the code is empty or the word contains the namespace
separator (`continue`), otherwise store it, overwriting any earlier binding
of the same word (`words[word] = code`). -/
def processStep (words : List (String × String)) (wc : String × String) :
    List (String × String) :=
  if wc.1 = "" ∨ wc.2 = "" ∨ hasColon wc.1 then words
  else setKey words wc.1 wc.2

/-- The `process` loop over the remaining page elements: extraction errors
propagate, each extracted pair goes through `processStep`. -/
def processList (elements : List Element) (words : List (String × String)) :
    Except String (List (String × String)) :=
  match elements with
  | [] => .ok words
  | e :: rest =>
    match xml_parse_element e with
    | .error msg => .error msg
    | .ok wc => processList rest (processStep words wc)

/-- `process` of src/wikidict/parse.py over the page elements the iterator
yields, starting from the empty mapping. -/
def process (elements : List Element) : Except String (List (String × String)) :=
  processList elements []

/-- Dictionary read-back: the value bound to a key in the mapping. -/
def getKey (m : List (String × String)) (k : String) : Option String :=
  (m.find? (fun p => p.1 == k)).map (fun p => p.2)

/-! ## A ruleset whose registry recognizes every name, for precedence tests,
and one whose adjective table holds a key mapped to the empty string. -/

def overlap_ruleset : LocaleRuleSet :=
  { de_ruleset with
    lookupTemplate := fun _ => true
    renderTemplate := fun _ => "REGISTRY" }

def empty_entry_ruleset : LocaleRuleSet :=
  { de_ruleset with
    lang_adjs := ("gone", "") :: lang_adjs
    lookupTemplate := fun _ => false }

/-! ## Template dispatch theorems -/

theorem headD_cons_getD (name : String) (params : List String) :
    (name :: params).getD 1 "" = params.headD "" := by
  cases params <;> rfl

theorem headD_eq_getElem (params : List String) :
    (params[0]?).getD "" = params.head?.getD "" := by
  cases params <;> simp

theorem lookup_lang_adjs_ne (name : String) (h : name ≠ "fr.") :
    lookup lang_adjs name = "" := by
  simp only [lookup, lang_adjs, List.find?]
  have : ("fr." == name) = false := by
    simp [beq_eq_false_iff_ne]
    exact fun hh => h hh.symm
  simp [this]

theorem lookup_langs_ne (name : String) (h : name ≠ "fr") :
    lookup langs name = "" := by
  simp only [lookup, langs, List.find?]
  have : ("fr" == name) = false := by
    simp [beq_eq_false_iff_ne]
    exact fun hh => h hh.symm
  simp [this]

/-- C1: for every invocation (name plus possibly-empty parameter list) and
rule set, an invocation matched by no locale table and not recognized by the
generic registry is rendered by the default fallback placeholder; the
embedding is a total function, so rendering always produces a string and no
error is propagated. -/
theorem render_unmatched_uses_default_fallback (rs : LocaleRuleSet)
    (name : String) (params : List String)
    (h1 : lookup rs.lang_adjs name = "")
    (h2 : lookup rs.langs name = "")
    (h3 : lookup rs.markierung name = "")
    (h4 : rs.lookupTemplate name = false) :
    last_template_handler rs (name :: params) = default_handler (name :: params) := by
  simp [last_template_handler, h1, h2, h3, h4]

theorem render_unmatched_uses_default_fallback_witness :
    last_template_handler de_ruleset ["unknowntpl"] = default_handler ["unknowntpl"] :=
  render_unmatched_uses_default_fallback de_ruleset "unknowntpl" []
    (by decide) (by decide) (by decide) (by decide)

/-- C2: dispatch precedence is the fixed first-match-wins order:
language-adjective table, then language-name table, then markierung table,
then generic registry; in particular an adjective-table match wins
regardless of what the registry would answer. -/
theorem dispatch_precedence_first_match_wins (rs : LocaleRuleSet)
    (name : String) (params : List String) :
    (lookup rs.lang_adjs name ≠ "" →
      last_template_handler rs (name :: params)
        = lookup rs.lang_adjs name ++ params.headD "")
    ∧ (lookup rs.lang_adjs name = "" → lookup rs.langs name ≠ "" →
      last_template_handler rs (name :: params) = lookup rs.langs name)
    ∧ (lookup rs.lang_adjs name = "" → lookup rs.langs name = "" →
      lookup rs.markierung name ≠ "" →
      last_template_handler rs (name :: params)
        = italic (lookup rs.markierung name ++ params.headD ""))
    ∧ (lookup rs.lang_adjs name = "" → lookup rs.langs name = "" →
      lookup rs.markierung name = "" → rs.lookupTemplate name = true →
      last_template_handler rs (name :: params)
        = rs.renderTemplate (name :: params)) := by
  refine ⟨fun h1 => ?_, fun h1 h2 => ?_, fun h1 h2 h3 => ?_, fun h1 h2 h3 h4 => ?_⟩
  · simp [last_template_handler, h1, headD_cons_getD, headD_eq_getElem]
  · simp [last_template_handler, h1, h2]
  · simp [last_template_handler, h1, h2, h3, headD_cons_getD, headD_eq_getElem]
  · simp [last_template_handler, h1, h2, h3, h4]

theorem dispatch_precedence_first_match_wins_witness :
    overlap_ruleset.lookupTemplate "fr." = true
      ∧ lookup overlap_ruleset.lang_adjs "fr." ≠ ""
      ∧ last_template_handler overlap_ruleset ["fr.", ":"] = "französisch:" :=
  ⟨by decide, by decide,
    ((dispatch_precedence_first_match_wins overlap_ruleset "fr." [":"]).1
      (by decide)).trans (by decide)⟩

/-- C3: an invocation whose name is in the language-adjective table renders
as the table adjective with the second positional parameter (when present)
appended verbatim with no separator; for the German rule set, ("fr.")
renders "französisch" and ("fr.", ":") renders "französisch:". -/
theorem lang_adj_rendering (rs : LocaleRuleSet) (name : String)
    (params : List String) (h : lookup rs.lang_adjs name ≠ "") :
    last_template_handler rs (name :: params)
        = lookup rs.lang_adjs name ++ params.headD ""
      ∧ last_template_handler de_ruleset ["fr."] = "französisch"
      ∧ last_template_handler de_ruleset ["fr.", ":"] = "französisch:" := by
  refine ⟨?_, by decide, by decide⟩
  simp [last_template_handler, h, headD_cons_getD, headD_eq_getElem]

theorem lang_adj_rendering_witness :
    last_template_handler de_ruleset ["fr.", ":"]
      = lookup de_ruleset.lang_adjs "fr." ++ [":"].headD "" :=
  (lang_adj_rendering de_ruleset "fr." [":"] (by decide)).1

/-- C4: an invocation whose name is in the markierung table (and matched by
no earlier table) renders as the expanded label with the second parameter
(when present) appended inside the italic span; for the German rule set this
holds for every name of `templates_markierung` unconditionally. -/
theorem markierung_rendering :
    (∀ (rs : LocaleRuleSet) (name : String) (params : List String),
      lookup rs.lang_adjs name = "" → lookup rs.langs name = "" →
      lookup rs.markierung name ≠ "" →
      last_template_handler rs (name :: params)
        = italic (lookup rs.markierung name ++ params.headD ""))
    ∧ (∀ (name : String) (params : List String),
      lookup templates_markierung name ≠ "" →
      last_template_handler de_ruleset (name :: params)
        = italic (lookup templates_markierung name ++ params.headD "")) := by
  constructor
  · intro rs name params h1 h2 h3
    simp [last_template_handler, h1, h2, h3, headD_cons_getD, headD_eq_getElem]
  · intro name params h3
    have ha : lookup lang_adjs name = "" := by
      by_cases hn : name = "fr."
      · subst hn; exact absurd (by decide) h3
      · exact lookup_lang_adjs_ne name hn
    have hl : lookup langs name = "" := by
      by_cases hn : name = "fr"
      · subst hn; exact absurd (by decide) h3
      · exact lookup_langs_ne name hn
    simp [last_template_handler, de_ruleset, ha, hl, h3, headD_cons_getD, headD_eq_getElem]

theorem markierung_rendering_witness :
    last_template_handler de_ruleset ["hist.", " 17. Jh."]
      = italic (lookup templates_markierung "hist." ++ [" 17. Jh."].headD "") :=
  markierung_rendering.2 "hist." [" 17. Jh."] (by decide)

/-- C10: whenever every locale table lookup yields the empty string — be the
name absent or explicitly mapped to empty output — rendering falls through
to the generic registry and then the default fallback: dispatch cannot
distinguish the two cases. -/
theorem empty_lookup_falls_through (rs : LocaleRuleSet) (name : String)
    (params : List String)
    (h1 : lookup rs.lang_adjs name = "")
    (h2 : lookup rs.langs name = "")
    (h3 : lookup rs.markierung name = "") :
    last_template_handler rs (name :: params)
      = if rs.lookupTemplate name then rs.renderTemplate (name :: params)
        else default_handler (name :: params) := by
  by_cases h4 : rs.lookupTemplate name <;>
    simp [last_template_handler, h1, h2, h3, h4]

theorem empty_lookup_falls_through_witness :
    (empty_entry_ruleset.lang_adjs.map Prod.fst).contains "gone" = true
      ∧ lookup empty_entry_ruleset.lang_adjs "gone" = ""
      ∧ last_template_handler empty_entry_ruleset ["gone"]
        = if empty_entry_ruleset.lookupTemplate "gone"
          then empty_entry_ruleset.renderTemplate ["gone"]
          else default_handler ["gone"] :=
  ⟨by decide, by decide,
    empty_lookup_falls_through empty_entry_ruleset "gone" []
      (by decide) (by decide) (by decide)⟩

/-! ## Concrete page fixtures for the streamer -/

def child (t : String) : Element := .mk (ns ++ t) none []

def titleChild (w : String) : Element := .mk (ns ++ "title") (some w) []

def textChild (s : String) : Element := .mk (ns ++ "text") (some s) []

/-- A revision whose text child sits at index 7, past the minimum offset 5. -/
def revChildren (s : String) : List Element :=
  [child "id", child "parentid", child "timestamp", child "contributor",
   child "comment", child "model", child "format", textChild s]

def revisionWith (s : String) : Element := .mk (ns ++ "revision") none (revChildren s)

def normalPage : Element :=
  .mk (ns ++ "page") none
    [titleChild "Wort", child "ns", child "id", revisionWith "markup"]

def updatedPage : Element :=
  .mk (ns ++ "page") none
    [titleChild "Wort", child "ns", child "id", revisionWith "markup2"]

def restrictedPage : Element :=
  .mk (ns ++ "page") none
    [titleChild "Wort", child "ns", child "id", child "restrictions",
     revisionWith "markup"]

def redirectPage : Element :=
  .mk (ns ++ "page") none
    [titleChild "Weiterleitung", child "ns", child "id", child "revision"]

def unfinishedPage : Element :=
  .mk (ns ++ "page") none
    [titleChild "Stub", child "ns", child "id",
     .mk (ns ++ "revision") none [child "id"]]

def corruptPage : Element := .mk (ns ++ "page") none []

/-- A page element is structurally well formed when slot 3 of its children
exists and, when a restrictions marker occupies it, slot 4 exists too: the
only shapes on which `element[3]` / `element[4]` cannot raise. -/
def wellFormedPage (e : Element) : Bool :=
  match e.children.get? 3 with
  | none => false
  | some r3 =>
    if r3.tag = ns ++ "restrictions" then (e.children.get? 4).isSome else true

/-! ## Streamer helper lemmas -/

theorem processList_cons (e : Element) (rest : List Element)
    (acc : List (String × String)) :
    processList (e :: rest) acc
      = match xml_parse_element e with
        | .error msg => .error msg
        | .ok wc => processList rest (processStep acc wc) := rfl

theorem processList_append (l1 l2 : List Element) (acc : List (String × String)) :
    processList (l1 ++ l2) acc
      = match processList l1 acc with
        | .error msg => .error msg
        | .ok acc2 => processList l2 acc2 := by
  induction l1 generalizing acc with
  | nil => rfl
  | cons e rest ih =>
    rw [List.cons_append, processList_cons, processList_cons]
    cases xml_parse_element e with
    | error msg => rfl
    | ok wc => exact ih (processStep acc wc)

theorem getKey_cons_pos (q : String × String) (l : List (String × String))
    (k : String) (hq : (q.1 == k) = true) :
    getKey (q :: l) k = some q.2 := by
  unfold getKey
  rw [@List.find?_cons_of_pos _ (fun p => p.1 == k) q l hq]
  rfl

theorem getKey_cons_neg (q : String × String) (l : List (String × String))
    (k : String) (hq : (q.1 == k) = false) :
    getKey (q :: l) k = getKey l k := by
  unfold getKey
  rw [@List.find?_cons_of_neg _ (fun p => p.1 == k) q l (by simp [hq])]

theorem getKey_map_replace (k v : String) :
    ∀ m : List (String × String), m.any (fun p => p.1 == k) = true →
    getKey (m.map (fun p => if p.1 == k then (k, v) else p)) k = some v := by
  intro m
  induction m with
  | nil => intro h; simp at h
  | cons p rest ih =>
    intro h
    rw [List.map_cons]
    by_cases hpk : (p.1 == k) = true
    · rw [if_pos hpk, getKey_cons_pos _ _ _ (by simp)]
    · have hpk2 : (p.1 == k) = false := by rwa [Bool.not_eq_true] at hpk
      rw [List.any_cons, hpk2, Bool.false_or] at h
      rw [if_neg hpk, getKey_cons_neg _ _ _ hpk2, ih h]

theorem getKey_append_new (k v : String) :
    ∀ m : List (String × String), m.any (fun p => p.1 == k) = false →
    getKey (m ++ [(k, v)]) k = some v := by
  intro m
  induction m with
  | nil =>
    intro _
    rw [List.nil_append, getKey_cons_pos _ _ _ (by simp)]
  | cons p rest ih =>
    intro h
    rw [List.any_cons] at h
    obtain ⟨h1, h2⟩ := Bool.or_eq_false_iff.1 h
    rw [List.cons_append, getKey_cons_neg _ _ _ h1, ih h2]

theorem getKey_setKey_self (m : List (String × String)) (k v : String) :
    getKey (setKey m k v) k = some v := by
  unfold setKey
  by_cases hany : m.any (fun p => p.1 == k) = true
  · rw [if_pos hany]; exact getKey_map_replace k v m hany
  · have hany2 : m.any (fun p => p.1 == k) = false := by
      rwa [Bool.not_eq_true] at hany
    rw [if_neg hany]
    exact getKey_append_new k v m hany2

theorem getKey_map_replace_ne (k v k2 : String) (h : k2 ≠ k) :
    ∀ m : List (String × String),
    getKey (m.map (fun p => if p.1 == k then (k, v) else p)) k2 = getKey m k2 := by
  intro m
  induction m with
  | nil => rfl
  | cons p rest ih =>
    rw [List.map_cons]
    by_cases hpk : (p.1 == k) = true
    · have hk : p.1 = k := by simpa using hpk
      have h1 : ((k : String) == k2) = false :=
        beq_eq_false_iff_ne.2 (fun hh => h hh.symm)
      have h2 : (p.1 == k2) = false := by rw [hk]; exact h1
      rw [if_pos hpk, getKey_cons_neg _ _ _ h1, getKey_cons_neg _ _ _ h2, ih]
    · have hpk2 : (p.1 == k) = false := by rwa [Bool.not_eq_true] at hpk
      rw [if_neg hpk]
      by_cases h2 : (p.1 == k2) = true
      · rw [getKey_cons_pos _ _ _ h2, getKey_cons_pos _ _ _ h2]
      · have h3 : (p.1 == k2) = false := by rwa [Bool.not_eq_true] at h2
        rw [getKey_cons_neg _ _ _ h3, getKey_cons_neg _ _ _ h3, ih]

theorem getKey_append_ne (k v k2 : String) (h : k2 ≠ k) :
    ∀ m : List (String × String),
    getKey (m ++ [(k, v)]) k2 = getKey m k2 := by
  intro m
  induction m with
  | nil =>
    have h1 : ((k : String) == k2) = false :=
      beq_eq_false_iff_ne.2 (fun hh => h hh.symm)
    rw [List.nil_append, getKey_cons_neg _ _ _ h1]
  | cons p rest ih =>
    rw [List.cons_append]
    by_cases h2 : (p.1 == k2) = true
    · rw [getKey_cons_pos _ _ _ h2, getKey_cons_pos _ _ _ h2]
    · have h3 : (p.1 == k2) = false := by rwa [Bool.not_eq_true] at h2
      rw [getKey_cons_neg _ _ _ h3, getKey_cons_neg _ _ _ h3, ih]

theorem getKey_setKey_ne (m : List (String × String)) (k v k2 : String)
    (h : k2 ≠ k) :
    getKey (setKey m k v) k2 = getKey m k2 := by
  unfold setKey
  by_cases hany : m.any (fun p => p.1 == k) = true
  · rw [if_pos hany]; exact getKey_map_replace_ne k v k2 h m
  · rw [if_neg hany]; exact getKey_append_ne k v k2 h m

theorem mem_setKey (m : List (String × String)) (k v : String)
    (q : String × String) (hq : q ∈ setKey m k v) : q ∈ m ∨ q = (k, v) := by
  unfold setKey at hq
  by_cases hany : m.any (fun p => p.1 == k) = true
  · rw [if_pos hany] at hq
    obtain ⟨p, hp, hfp⟩ := List.mem_map.1 hq
    by_cases hpk : (p.1 == k) = true
    · rw [if_pos hpk] at hfp; exact Or.inr hfp.symm
    · rw [if_neg hpk] at hfp
      exact Or.inl (hfp ▸ hp)
  · rw [if_neg hany] at hq
    rcases List.mem_append.1 hq with hq | hq
    · exact Or.inl hq
    · exact Or.inr (List.mem_singleton.1 hq)

/-! ## Branch characterizations of `xml_parse_element` -/

theorem xml_parse_element_eq (e r3 : Element)
    (hg : e.children.get? 3 = some r3) :
    xml_parse_element e
      = if r3.tag = ns ++ "restrictions" then
          match e.children.get? 4 with
          | none => .error "IndexError"
          | some r4 =>
            match scanText r4.children with
            | none => .ok ("", "")
            | some code => .ok (titleOf e, code)
        else if r3.children.isEmpty then .ok ("", "")
        else
          match scanText r3.children with
          | none => .ok ("", "")
          | some code => .ok (titleOf e, code) := by
  unfold xml_parse_element
  rw [hg]

theorem xml_parse_element_restricted (e r3 r4 : Element)
    (hg : e.children.get? 3 = some r3) (ht : r3.tag = ns ++ "restrictions")
    (hg4 : e.children.get? 4 = some r4) :
    xml_parse_element e
      = match scanText r4.children with
        | none => .ok ("", "")
        | some code => .ok (titleOf e, code) := by
  rw [xml_parse_element_eq e r3 hg, if_pos ht, hg4]

theorem xml_parse_element_redirect (e r3 : Element)
    (hg : e.children.get? 3 = some r3) (ht : ¬ r3.tag = ns ++ "restrictions")
    (hc : r3.children.isEmpty = true) :
    xml_parse_element e = .ok ("", "") := by
  rw [xml_parse_element_eq e r3 hg, if_neg ht, if_pos hc]

theorem xml_parse_element_normal (e r3 : Element)
    (hg : e.children.get? 3 = some r3) (ht : ¬ r3.tag = ns ++ "restrictions")
    (hc : ¬ r3.children.isEmpty = true) :
    xml_parse_element e
      = match scanText r3.children with
        | none => .ok ("", "")
        | some code => .ok (titleOf e, code) := by
  rw [xml_parse_element_eq e r3 hg, if_neg ht, if_neg hc]

/-! ## Totality, invariant and stability lemmas for the process loop -/

theorem extract_ok_of_wellformed (e : Element) (he : wellFormedPage e = true) :
    ∃ p, xml_parse_element e = .ok p := by
  cases hg : e.children.get? 3 with
  | none =>
    unfold wellFormedPage at he
    rw [hg] at he
    exact Bool.noConfusion he
  | some r3 =>
    unfold wellFormedPage at he
    rw [hg] at he
    have he2 : (if r3.tag = ns ++ "restrictions"
        then (e.children.get? 4).isSome else true) = true := he
    by_cases ht : r3.tag = ns ++ "restrictions"
    · rw [if_pos ht] at he2
      cases hg4 : e.children.get? 4 with
      | none =>
        rw [hg4] at he2
        exact Bool.noConfusion he2
      | some r4 =>
        rw [xml_parse_element_restricted e r3 r4 hg ht hg4]
        cases scanText r4.children <;> exact ⟨_, rfl⟩
    · by_cases hc : r3.children.isEmpty = true
      · exact ⟨_, xml_parse_element_redirect e r3 hg ht hc⟩
      · rw [xml_parse_element_normal e r3 hg ht hc]
        cases scanText r3.children <;> exact ⟨_, rfl⟩

theorem processList_ok_of_all :
    ∀ (es : List Element) (acc : List (String × String)),
    (∀ e ∈ es, ∃ p, xml_parse_element e = .ok p) →
    ∃ ws, processList es acc = .ok ws := by
  intro es
  induction es with
  | nil => intro acc _; exact ⟨acc, rfl⟩
  | cons e rest ih =>
    intro acc hall
    obtain ⟨p, hp⟩ := hall e (List.mem_cons_self e rest)
    rw [processList_cons, hp]
    exact ih (processStep acc p) (fun e2 he2 => hall e2 (List.mem_cons_of_mem _ he2))

theorem processList_preserves_invariant :
    ∀ (es : List Element) (acc ws : List (String × String)),
    processList es acc = .ok ws →
    (∀ q ∈ acc, q.1 ≠ "" ∧ q.2 ≠ "" ∧ hasColon q.1 = false) →
    ∀ q ∈ ws, q.1 ≠ "" ∧ q.2 ≠ "" ∧ hasColon q.1 = false := by
  intro es
  induction es with
  | nil =>
    intro acc ws h hacc
    injection h with h2
    rw [← h2]
    exact hacc
  | cons e rest ih =>
    intro acc ws h hacc
    rw [processList_cons] at h
    cases hx : xml_parse_element e with
    | error msg =>
      rw [hx] at h
      exact Except.noConfusion h
    | ok wc =>
      rw [hx] at h
      refine ih (processStep acc wc) ws h ?_
      intro q hq
      unfold processStep at hq
      by_cases hcond : wc.1 = "" ∨ wc.2 = "" ∨ hasColon wc.1
      · rw [if_pos hcond] at hq
        exact hacc q hq
      · rw [if_neg hcond] at hq
        rcases mem_setKey _ _ _ q hq with hq2 | hq2
        · exact hacc q hq2
        · subst hq2
          push_neg at hcond
          exact ⟨hcond.1, hcond.2.1, by simpa using hcond.2.2⟩

theorem getKey_processList_stable (w : String) :
    ∀ (es : List Element) (acc ws : List (String × String)),
    processList es acc = .ok ws →
    (∀ e ∈ es, ∀ c2, ¬ xml_parse_element e = .ok (w, c2)) →
    getKey ws w = getKey acc w := by
  intro es
  induction es with
  | nil =>
    intro acc ws h _
    injection h with h2
    rw [h2]
  | cons e rest ih =>
    intro acc ws h hnone
    rw [processList_cons] at h
    cases hx : xml_parse_element e with
    | error msg =>
      rw [hx] at h
      exact Except.noConfusion h
    | ok wc =>
      obtain ⟨w1, c1⟩ := wc
      rw [hx] at h
      have h2 : processList rest (processStep acc (w1, c1)) = .ok ws := h
      have hrec := ih (processStep acc (w1, c1)) ws h2
        (fun e2 he2 => hnone e2 (List.mem_cons_of_mem _ he2))
      rw [hrec]
      unfold processStep
      by_cases hcond : (w1, c1).1 = "" ∨ (w1, c1).2 = "" ∨ hasColon (w1, c1).1
      · rw [if_pos hcond]
      · rw [if_neg hcond]
        refine getKey_setKey_ne acc _ _ w ?_
        intro hww
        exact hnone e (List.mem_cons_self e rest) c1
          (by rw [hx, hww])

/-! ## Streamer claim theorems -/

/-- C5 counterexample: a structurally corrupt page element (no children at
all, so `element[3]` raises `IndexError`) makes per-page extraction fail,
and the failure aborts `process` of a dump holding the corrupt page followed
by a perfectly valid one: the stream does not run to completion. -/
theorem malformed_page_aborts_stream :
    xml_parse_element corruptPage = .error "IndexError"
      ∧ process [corruptPage, normalPage] = .error "IndexError" :=
  ⟨rfl, rfl⟩

/-- C5 (amended): redirect pages and pages without a text-bearing child are
silently skipped, and processing a dump whose page elements are structurally
well formed (slot 3 of the children exists, and slot 4 exists when a
restriction marker occupies slot 3) always runs to completion; but a page
element narrower than that makes extraction raise an index error, which is
fatal to the whole stream. -/
theorem wellformed_processing_never_fatal :
    (∀ e, wellFormedPage e = true → ∃ p, xml_parse_element e = .ok p)
    ∧ ∀ es, (∀ e ∈ es, wellFormedPage e = true) →
      ∃ ws, process es = .ok ws := by
  refine ⟨extract_ok_of_wellformed, fun es hall => ?_⟩
  exact processList_ok_of_all es []
    (fun e he => extract_ok_of_wellformed e (hall e he))

theorem wellformed_processing_never_fatal_witness :
    wellFormedPage restrictedPage = true
      ∧ ∃ ws, process [normalPage, restrictedPage, redirectPage, unfinishedPage]
          = .ok ws := by
  refine ⟨rfl, wellformed_processing_never_fatal.2 _ ?_⟩
  intro e he
  simp only [List.mem_cons, List.not_mem_nil, or_false] at he
  rcases he with rfl | rfl | rfl | rfl <;> rfl

/-- C6: every entry of a successfully produced word table has a non-empty
word, a non-empty markup and no namespace separator in the word; and the
markup bound to a word is the one extracted from the most recently seen page
with that title: a later valid extraction of the same title overwrites any
earlier binding, and stays in place across pages of other titles. -/
theorem process_wordentry_invariant :
    (∀ es ws, process es = .ok ws →
      ∀ q ∈ ws, q.1 ≠ "" ∧ q.2 ≠ "" ∧ hasColon q.1 = false)
    ∧ ∀ es1 e es2 w c ws,
      xml_parse_element e = .ok (w, c) →
      w ≠ "" → c ≠ "" → hasColon w = false →
      (∀ e2 ∈ es2, ∀ c2, ¬ xml_parse_element e2 = .ok (w, c2)) →
      process (es1 ++ e :: es2) = .ok ws →
      getKey ws w = some c := by
  constructor
  · intro es ws h
    exact processList_preserves_invariant es [] ws h (fun q hq => absurd hq (List.not_mem_nil q))
  · intro es1 e es2 w c ws hx hw hc hcol hnone h
    unfold process at h
    rw [processList_append] at h
    cases h1 : processList es1 [] with
    | error msg =>
      rw [h1] at h
      exact Except.noConfusion h
    | ok acc1 =>
      rw [h1] at h
      have h2 : processList (e :: es2) acc1 = .ok ws := h
      rw [processList_cons, hx] at h2
      have h3 : processList es2 (processStep acc1 (w, c)) = .ok ws := h2
      have hncond : ¬((w, c).1 = "" ∨ (w, c).2 = "" ∨ hasColon (w, c).1) := by
        push_neg
        refine ⟨hw, hc, ?_⟩
        simp [hcol]
      have hstep : processStep acc1 (w, c) = setKey acc1 w c := by
        unfold processStep
        rw [if_neg hncond]
      rw [hstep] at h3
      rw [getKey_processList_stable w es2 (setKey acc1 w c) ws h3 hnone,
        getKey_setKey_self]

theorem process_wordentry_invariant_witness :
    ∃ ws, process [normalPage, updatedPage] = .ok ws
      ∧ getKey ws "Wort" = some "markup2"
      ∧ ∀ q ∈ ws, q.1 ≠ "" ∧ q.2 ≠ "" ∧ hasColon q.1 = false := by
  refine ⟨[("Wort", "markup2")], rfl, ?_, ?_⟩
  · exact process_wordentry_invariant.2 [normalPage] updatedPage [] "Wort" "markup2"
      [("Wort", "markup2")] rfl (by decide) (by decide) (by decide)
      (fun e2 he2 => absurd he2 (List.not_mem_nil e2)) rfl
  · exact process_wordentry_invariant.1 [normalPage, updatedPage]
      [("Wort", "markup2")] rfl

/-- C7: a page whose revision slot holds a childless revision element is a
redirect stub: per-page extraction returns the empty pair and the process
loop emits nothing for it, continuing with the rest of the stream
unchanged. -/
theorem redirect_page_emits_nothing (e r3 : Element)
    (hg : e.children.get? 3 = some r3)
    (ht : ¬ r3.tag = ns ++ "restrictions")
    (hc : r3.children = []) :
    xml_parse_element e = .ok ("", "")
      ∧ ∀ es acc, processList (e :: es) acc = processList es acc := by
  have hemp : r3.children.isEmpty = true := by rw [hc]; rfl
  have hx := xml_parse_element_redirect e r3 hg ht hemp
  refine ⟨hx, fun es acc => ?_⟩
  rw [processList_cons, hx]
  show processList es (processStep acc ("", "")) = processList es acc
  rw [show processStep acc ("", "") = acc from by unfold processStep; rw [if_pos (Or.inl rfl)]]

theorem redirect_page_emits_nothing_witness :
    xml_parse_element redirectPage = .ok ("", "")
      ∧ processList [redirectPage] [] = processList [] [] :=
  ⟨(redirect_page_emits_nothing redirectPage (child "revision") rfl (by decide) rfl).1,
   (redirect_page_emits_nothing redirectPage (child "revision") rfl (by decide) rfl).2 [] []⟩

/-- C8: with the revision located (non-redirect case), extraction scans the
revision's children from the fixed minimum offset 5 onward for the first
text-tagged child and uses its text as the markup; when no such child
exists the page is unfinished: the empty pair is returned and the process
loop emits nothing for the page. -/
theorem text_scan_from_offset_five (e r3 : Element)
    (hg : e.children.get? 3 = some r3)
    (ht : ¬ r3.tag = ns ++ "restrictions")
    (hc : ¬ r3.children.isEmpty = true) :
    (xml_parse_element e
      = match (r3.children.drop 5).find? (fun info => info.tag == ns ++ "text") with
        | some info => .ok (titleOf e, info.text.getD "")
        | none => .ok ("", ""))
      ∧ ((r3.children.drop 5).find? (fun info => info.tag == ns ++ "text") = none →
        ∀ es acc, processList (e :: es) acc = processList es acc) := by
  have hx := xml_parse_element_normal e r3 hg ht hc
  constructor
  · rw [hx]
    unfold scanText
    cases (r3.children.drop 5).find? (fun info => info.tag == ns ++ "text") <;> rfl
  · intro hnone es acc
    have hs : scanText r3.children = none := by
      unfold scanText
      rw [hnone]
      rfl
    rw [processList_cons, hx, hs]
    show processList es (processStep acc ("", "")) = processList es acc
    rw [show processStep acc ("", "") = acc from by unfold processStep; rw [if_pos (Or.inl rfl)]]

theorem text_scan_from_offset_five_witness :
    xml_parse_element unfinishedPage = .ok ("", "")
      ∧ processList [unfinishedPage] [] = processList [] [] := by
  have h := text_scan_from_offset_five unfinishedPage
    (Element.mk (ns ++ "revision") none [child "id"]) rfl (by decide) (by decide)
  exact ⟨h.1.trans rfl, h.2 rfl [] []⟩

/-- C9: the revision child is read at fixed index 3 of the page's children;
when the element occupying that slot is a restriction marker — detected by
inspecting the tag of what sits in the slot, not by a fixed marker offset —
the revision is read at index 4 instead, and the rest of extraction (scan
for the text child, title at index 0) is the same in both cases. -/
theorem restriction_marker_shifts_revision :
    (∀ e r3 r4, e.children.get? 3 = some r3 →
      r3.tag = ns ++ "restrictions" →
      e.children.get? 4 = some r4 →
      xml_parse_element e
        = match scanText r4.children with
          | none => .ok ("", "")
          | some code => .ok (titleOf e, code))
    ∧ ∀ e r3, e.children.get? 3 = some r3 →
      ¬ r3.tag = ns ++ "restrictions" →
      ¬ r3.children.isEmpty = true →
      xml_parse_element e
        = match scanText r3.children with
          | none => .ok ("", "")
          | some code => .ok (titleOf e, code) :=
  ⟨xml_parse_element_restricted, xml_parse_element_normal⟩

theorem restriction_marker_shifts_revision_witness :
    xml_parse_element restrictedPage = .ok ("Wort", "markup")
      ∧ xml_parse_element normalPage = .ok ("Wort", "markup") := by
  constructor
  · have h := restriction_marker_shifts_revision.1 restrictedPage
      (child "restrictions") (revisionWith "markup") rfl rfl rfl
    exact h.trans rfl
  · have h := restriction_marker_shifts_revision.2 normalPage
      (revisionWith "markup") rfl (by decide) (by decide)
    exact h.trans rfl

end Wikidict
